import Mathlib

/-!
# Verification of the `MolecularEmbeddingService` core (chem-mrl-demo)

A shallow embedding of the service layer in `src/service.py` together with the
configuration constants of `src/constants.py`.  Floating-point vectors are
modelled as lists of real numbers; the external collaborators (the sentence
transformer model, RDKit canonicalization, and the Redis backing store's
FT.SEARCH endpoint) are parameters of the embedded functions, since they are
not code of this repository.
-/

namespace ChemMRLDemo

/-! ## Constants (src/constants.py) -/

/-- The list `SUPPORTED_EMBEDDING_DIMENSIONS` from constants.py. -/
def SUPPORTED_EMBEDDING_DIMENSIONS : List ℕ :=
  [1024, 768, 512, 256, 128, 64, 32, 16, 8, 4, 2]

/-- The native dimension `EMBEDDING_DIMENSION = max(SUPPORTED_EMBEDDING_DIMENSIONS)`
from constants.py. -/
def EMBEDDING_DIMENSION : ℕ := SUPPORTED_EMBEDDING_DIMENSIONS.foldl max 0

/-- The constant `HNSW_K` from constants.py, the default `k` of `find_similar_molecules`. -/
def HNSW_K : ℤ := 6

/-! ## Field and key naming (service.py lines 254-260) -/

/-- The function `embedding_field_name`: the per-dimension vector field name
`embedding_<dim>`. -/
def embedding_field_name (dim : ℤ) : String := "embedding_" ++ toString dim

/-- The function named `molecule_index_prefix` in service.py: the backing-store key
`mol:<smiles>`
for a record (renamed here to avoid clashing with reserved words). -/
def molecule_index_pfx (smiles : String) : String := "mol:" ++ smiles

/-! ## Truncation and normalization (service.py lines 194-199) -/

/-- Python's slice `v[:d]` for an integer bound `d`: a non-negative bound keeps
the first `d` elements, a negative bound counts from the end of the list. -/
def pySliceTo (v : List ℝ) (d : ℤ) : List ℝ :=
  if 0 ≤ d then v.take d.toNat else v.take ((v.length : ℤ) + d).toNat

/-- The truncation step of `_truncate_and_normalize_embedding` (lines 196-197):
`if embed_dim < len(embedding): embedding = embedding[:embed_dim]`. -/
def truncateEmbedding (embedding : List ℝ) (embed_dim : ℤ) : List ℝ :=
  if embed_dim < (embedding.length : ℤ) then pySliceTo embedding embed_dim else embedding

/-- Sum of squares of the coordinates. -/
def sumSq (v : List ℝ) : ℝ := (v.map (fun x => x ^ 2)).sum

/-- The L2 norm, `np.linalg.norm(v, ord=2)`. -/
noncomputable def l2norm (v : List ℝ) : ℝ := Real.sqrt (sumSq v)

/-- The normalization step (lines 198-199): divide every coordinate by the L2
norm, dividing by 1 instead when the norm is zero (`np.where(norms == 0, 1, norms)`). -/
noncomputable def normalizeVec (e : List ℝ) : List ℝ :=
  e.map (fun x => x / (if l2norm e = 0 then 1 else l2norm e))

/-- The helper `_truncate_and_normalize_embedding` (service.py lines 194-199). -/
noncomputable def truncate_and_normalize_embedding (embedding : List ℝ) (embed_dim : ℤ) :
    List ℝ :=
  normalizeVec (truncateEmbedding embedding embed_dim)

/-! ## The external embedding oracle and `get_molecular_embedding` -/

/-- The external collaborators used by `get_molecular_embedding`:
`MorganFingerprinter.canonicalize_smiles` (returns `none` for a SMILES it cannot
canonicalize) and `model.encode` (may raise, modelled as `Except`). -/
structure Oracle where
  canonicalize_smiles : String → Option String
  encode : String → Except String (List ℝ)

/-- The method `get_molecular_embedding` (service.py lines 173-192): rejects a non-positive
`embed_dim` with a `ValueError`, canonicalizes the SMILES (falling back to the
input when canonicalization yields `None` or an empty string, Python's
`canonicalize_smiles(smiles) or smiles`), queries the oracle once, and
truncates-and-normalizes the native vector.  Oracle errors propagate. -/
noncomputable def get_molecular_embedding (o : Oracle) (smiles : String) (embed_dim : ℤ) :
    Except String (List ℝ) :=
  if embed_dim ≤ 0 then .error "embed_dim must be positive"
  else
    let smiles1 :=
      match o.canonicalize_smiles smiles with
      | some c => if c = "" then smiles else c
      | none => smiles
    match o.encode smiles1 with
    | .error e => .error e
    | .ok embedding => .ok (truncate_and_normalize_embedding embedding embed_dim)

/-! ## The backing store and the ingestion pipeline (service.py lines 143-171) -/

/-- A value stored in a record's hash mapping: a string field, or the
`tobytes()` packing of a float vector (modelled by the vector it packs, the
packing being injective for a fixed dtype). -/
inductive FieldVal where
  | str (s : String)
  | bytes (v : List ℝ)

/-- A record's hash mapping, as an association list of fields. -/
abbrev Mapping := List (String × FieldVal)

/-- Lookup in a mapping built like a Python dict from an association list:
a later binding of the same field overwrites an earlier one. -/
def pyDictLookup (m : Mapping) (f : String) : Option FieldVal := m.reverse.lookup f

/-- The Redis hash store: keys to record mappings. -/
abbrev Store := List (String × Mapping)

/-- The existence check `redis_client.exists(key)`. -/
def Store.hasKey (s : Store) (k : String) : Bool := s.any (fun p => p.1 == k)

/-- The write `redis_client.hset(key, mapping=mapping)`: one atomic record-set operation.
In `__populate_sample_data` it is only reached for a key that is absent, so the
model simply adds the record. -/
def Store.hset (s : Store) (k : String) (m : Mapping) : Store := (k, m) :: s

/-- One row of the ingested dataframe: the `smiles` column plus the remaining
payload columns (name, category/properties, ...). -/
structure DataRow where
  smiles : String
  payload : List (String × String)

/-- The dict `row.to_dict()`: every column of the row as a string field. -/
def DataRow.toDict (r : DataRow) : Mapping :=
  ("smiles", FieldVal.str r.smiles) :: r.payload.map (fun p => (p.1, FieldVal.str p.2))

/-- The storage mapping assembled in `__populate_sample_data` (lines 154-160):
one binary field per supported dimension, each derived from the one cached
native embedding, merged with `row.to_dict()` (row fields overwrite on a name
collision, per `{**mapping, **row.to_dict()}` and `pyDictLookup`). -/
noncomputable def recordMapping (row : DataRow) (cache : List ℝ) : Mapping :=
  (SUPPORTED_EMBEDDING_DIMENSIONS.map fun d : ℕ =>
    (embedding_field_name (d : ℤ),
      FieldVal.bytes (truncate_and_normalize_embedding cache (d : ℤ))))
  ++ row.toDict

/-- One iteration of the per-record loop of `__populate_sample_data` (lines
146-169).  The second component counts the calls to `get_molecular_embedding`
(each of which, at the positive native dimension, queries the embedding oracle
exactly once).  A raised per-record exception (here: an oracle error) is caught,
logged and skipped, leaving the store unchanged. -/
noncomputable def processRow (o : Oracle) (acc : Store × ℕ) (row : DataRow) : Store × ℕ :=
  let key := molecule_index_pfx row.smiles
  if Store.hasKey acc.1 key then acc
  else
    match get_molecular_embedding o row.smiles (EMBEDDING_DIMENSION : ℤ) with
    | .error _ => (acc.1, acc.2 + 1)
    | .ok cache => (Store.hset acc.1 key (recordMapping row cache), acc.2 + 1)

/-- The ingestion pipeline `__populate_sample_data` (lines 143-171): fold the per-record
step over the
dataset, starting from the given store with no oracle calls made yet. -/
noncomputable def populate_sample_data (o : Oracle) (store : Store) (df : List DataRow) :
    Store × ℕ :=
  df.foldl (processRow o) (store, 0)

/-! ## The similarity query engine (service.py lines 201-230) -/

/-- One document of a backend search reply, carrying the projected return
fields.  The score is the string Redis reports, parsed by `float(doc.score)`;
it is modelled as a rational. -/
structure SearchDoc where
  smiles : String
  name : String
  properties : String
  score : ℚ

/-- The `SimilarMolecule` TypedDict of service.py lines 43-47. -/
structure SimilarMolecule where
  smiles : String
  name : String
  properties : String
  score : ℚ

/-- The KNN query built in `find_similar_molecules` (lines 207-212):
`*=>[KNN {k} @{embedding_field_name(embed_dim)} $vec AS score]`, sorted by the
`score` field (ascending, redis-py's `sort_by` default), projecting the four
return fields, dialect 2. -/
structure KnnQuery where
  knnK : ℤ
  dim : ℤ
  vecField : String
  vec : List ℝ
  sortByScoreAsc : Bool
  returnFields : List String
  dialect : ℕ

/-- Build the query of lines 206-212 for a query vector, dimension and k. -/
def buildKnnQuery (query_embedding : List ℝ) (embed_dim : ℤ) (k : ℤ) : KnnQuery :=
  { knnK := k
    dim := embed_dim
    vecField := embedding_field_name embed_dim
    vec := query_embedding
    sortByScoreAsc := true
    returnFields := ["smiles", "name", "properties", "score"]
    dialect := 2 }

/-- The query engine `find_similar_molecules` (lines 201-230).  The backing store's
`ft().search`
is an external collaborator, modelled as a function from the built query to
either an error (a raised exception: connection loss, unknown vector field,
invalid k, ...) or a document list.  Any backend error is caught, logged and
turned into the empty result; a reply is mapped to `SimilarMolecule`s in the
reply's order. -/
def find_similar_molecules (backend : KnnQuery → Except String (List SearchDoc))
    (query_embedding : List ℝ) (embed_dim : ℤ) (k : ℤ) : List SimilarMolecule :=
  match backend (buildKnnQuery query_embedding embed_dim k) with
  | .error _ => []
  | .ok results =>
      results.map fun doc =>
        { smiles := doc.smiles, name := doc.name, properties := doc.properties
          score := doc.score }

/-- Modelled from the spec: with the configured `COSINE` distance metric the
backend's reported `score` is a distance on unit vectors, and the cosine
similarity it encodes is `1 - score` (inner-product-as-cosine); higher
similarity corresponds to a smaller reported score.  The Redis scoring
convention itself is not code of this repository. -/
def similarityOfScore (s : ℚ) : ℚ := 1 - s

/-- Modelled from the spec: the backing store rejects (raises on) a KNN query
that names a vector field no index was declared for (an unsupported query
dimension) or whose `k` is not positive; only the caller of `ft().search` is in
this repository's sources. -/
def rejectsInvalidQueries (backend : KnnQuery → Except String (List SearchDoc)) : Prop :=
  ∀ q : KnnQuery,
    (q.knnK ≤ 0 ∨ q.dim ∉ SUPPORTED_EMBEDDING_DIMENSIONS.map (fun d : ℕ => (d : ℤ))) →
      ∃ e, backend q = .error e

/-- A concrete backend with the modelled rejection semantics, used to witness
the error-swallowing claims at an explicit input. -/
def rejectingBackend : KnnQuery → Except String (List SearchDoc) := fun q =>
  if q.knnK ≤ 0 then Except.error "k must be positive"
  else if q.dim ∈ SUPPORTED_EMBEDDING_DIMENSIONS.map (fun d : ℕ => (d : ℤ)) then Except.ok []
  else Except.error "Unknown field"

/-- A concrete two-document reply, used to witness the ordering claim at an
explicit input. -/
def demoDocs : List SearchDoc :=
  [⟨"CCO", "Ethanol", "Alcohol", 0⟩, ⟨"CC(C)O", "Isopropanol", "Alcohol", 1⟩]

/-- A concrete backend answering every query with `demoDocs`. -/
def demoBackend : KnnQuery → Except String (List SearchDoc) := fun _ => Except.ok demoDocs

/-! ## The startup ping retry loop (service.py lines 94-103) -/

/-- The outcome of one `redis_client.ping()` attempt. -/
inductive PingOutcome where
  | success
  | busyLoading
  | failure (e : String)
deriving DecidableEq

/-- Whether one pass of the `while True` loop exits: a successful ping breaks
out, a `BusyLoadingError` is caught (sleep 5 seconds, retry), and any other
exception propagates out of the loop (it is not caught). -/
def retryExit : PingOutcome → Option (Except String Unit)
  | .success => some (Except.ok ())
  | .busyLoading => none
  | .failure e => some (Except.error e)

/-- The `while True` ping loop of `_initialize_redis` (lines 94-102), observed
for at most `fuel` attempts over a given sequence of ping outcomes: `some r`
when the loop has exited (connected, or a non-busy-loading exception) within
the first `fuel` attempts, `none` when it is still looping. -/
def pingRetryLoop (outcomes : ℕ → PingOutcome) : ℕ → Option (Except String Unit)
  | 0 => none
  | fuel + 1 =>
    match retryExit (outcomes 0) with
    | some r => some r
    | none => pingRetryLoop (fun k => outcomes (k + 1)) fuel

/-! ## Helper lemmas: sums of squares, norms, normalization -/

theorem sumSq_nil : sumSq [] = 0 := by simp [sumSq]

theorem sumSq_cons (x : ℝ) (xs : List ℝ) : sumSq (x :: xs) = x ^ 2 + sumSq xs := by
  simp [sumSq]

theorem sumSq_nonneg (v : List ℝ) : 0 ≤ sumSq v := by
  induction v with
  | nil => simp [sumSq]
  | cons x xs ih => rw [sumSq_cons]; exact add_nonneg (sq_nonneg x) ih

theorem sumSq_eq_zero_iff (v : List ℝ) : sumSq v = 0 ↔ ∀ x ∈ v, x = 0 := by
  induction v with
  | nil => simp [sumSq]
  | cons x xs ih =>
    rw [sumSq_cons]
    constructor
    · intro h
      have hx2 : x ^ 2 = 0 := by nlinarith [sq_nonneg x, sumSq_nonneg xs]
      have hxs : sumSq xs = 0 := by nlinarith [sq_nonneg x, sumSq_nonneg xs]
      have hx : x = 0 := by
        have := sq_eq_zero_iff.mp hx2
        simpa using this
      intro y hy
      rcases List.mem_cons.mp hy with rfl | hy
      · exact hx
      · exact (ih.mp hxs) y hy
    · intro h
      have hx : x = 0 := h x (List.mem_cons_self x xs)
      have hxs : sumSq xs = 0 := ih.mpr fun y hy => h y (List.mem_cons_of_mem x hy)
      simp [hx, hxs]

theorem l2norm_nonneg (v : List ℝ) : 0 ≤ l2norm v := Real.sqrt_nonneg _

theorem l2norm_eq_zero_iff (v : List ℝ) : l2norm v = 0 ↔ ∀ x ∈ v, x = 0 := by
  rw [l2norm, Real.sqrt_eq_zero (sumSq_nonneg v), sumSq_eq_zero_iff]

theorem l2norm_pos_of_ne_zero (v : List ℝ) (h : l2norm v ≠ 0) : 0 < l2norm v :=
  lt_of_le_of_ne (l2norm_nonneg v) (Ne.symm h)

theorem sumSq_map_div (v : List ℝ) (c : ℝ) :
    sumSq (v.map (fun x => x / c)) = sumSq v / c ^ 2 := by
  induction v with
  | nil => simp [sumSq]
  | cons x xs ih =>
    rw [List.map_cons, sumSq_cons, sumSq_cons, ih, div_pow, add_div]

theorem l2norm_map_div (v : List ℝ) (c : ℝ) (hc : 0 < c) :
    l2norm (v.map (fun x => x / c)) = l2norm v / c := by
  rw [l2norm, sumSq_map_div, l2norm, Real.sqrt_div (sumSq_nonneg v), Real.sqrt_sq hc.le]

theorem normalizeVec_length (e : List ℝ) : (normalizeVec e).length = e.length := by
  simp [normalizeVec]

theorem normalizeVec_of_norm_zero (e : List ℝ) (h : l2norm e = 0) : normalizeVec e = e := by
  simp [normalizeVec, h]

theorem normalizeVec_of_norm_ne_zero (e : List ℝ) (h : l2norm e ≠ 0) :
    normalizeVec e = e.map (fun x => x / l2norm e) := by
  simp [normalizeVec, h]

theorem l2norm_normalizeVec (e : List ℝ) (h : l2norm e ≠ 0) : l2norm (normalizeVec e) = 1 := by
  rw [normalizeVec_of_norm_ne_zero e h, l2norm_map_div e _ (l2norm_pos_of_ne_zero e h),
    div_self h]

/-! ## Helper lemmas: truncation -/

theorem truncateEmbedding_of_nonneg (v : List ℝ) (d : ℤ) (hd : 0 ≤ d) :
    truncateEmbedding v d = v.take d.toNat := by
  unfold truncateEmbedding pySliceTo
  by_cases h : d < (v.length : ℤ)
  · rw [if_pos h, if_pos hd]
  · rw [if_neg h]
    have : v.length ≤ d.toNat := by omega
    exact (List.take_of_length_le this).symm

theorem truncateEmbedding_natCast (v : List ℝ) (d : ℕ) :
    truncateEmbedding v (d : ℤ) = v.take d := by
  rw [truncateEmbedding_of_nonneg v (d : ℤ) (by positivity)]
  simp

theorem truncateEmbedding_self (v : List ℝ) : truncateEmbedding v (v.length : ℤ) = v := by
  rw [truncateEmbedding_natCast v v.length, List.take_length]

theorem truncate_and_normalize_length (v : List ℝ) (d : ℤ) (hd : 0 ≤ d) :
    (truncate_and_normalize_embedding v d).length = min d.toNat v.length := by
  rw [truncate_and_normalize_embedding, normalizeVec_length,
    truncateEmbedding_of_nonneg v d hd, List.length_take]

/-! ## C2: normalization idempotence -/

/-- C2: normalization is idempotent: for every non-zero vector `v` and every
dimension `d ≤ len(v)`, `normalize(normalize(v, len(v)), d) = normalize(v, d)` —
truncating then renormalizing an already-normalized full-length vector gives the
same result as truncating and normalizing the raw vector directly. -/
theorem C2_normalization_idempotent (v : List ℝ) (d : ℕ)
    (hv : ∃ x ∈ v, x ≠ 0) (hd : d ≤ v.length) :
    truncate_and_normalize_embedding (truncate_and_normalize_embedding v (v.length : ℤ))
        (d : ℤ)
      = truncate_and_normalize_embedding v (d : ℤ) := by
  have hn : l2norm v ≠ 0 := by
    intro h0
    obtain ⟨x, hx, hxne⟩ := hv
    exact hxne ((l2norm_eq_zero_iff v).mp h0 x hx)
  have hnpos : 0 < l2norm v := l2norm_pos_of_ne_zero v hn
  have hinner : truncate_and_normalize_embedding v (v.length : ℤ)
      = v.map (fun x => x / l2norm v) := by
    rw [truncate_and_normalize_embedding, truncateEmbedding_self,
      normalizeVec_of_norm_ne_zero v hn]
  rw [hinner, truncate_and_normalize_embedding, truncate_and_normalize_embedding,
    truncateEmbedding_natCast, truncateEmbedding_natCast, ← List.map_take]
  set w := v.take d with hw
  by_cases hzw : l2norm w = 0
  · have hall : ∀ x ∈ w, x = 0 := (l2norm_eq_zero_iff w).mp hzw
    have hmap0 : w.map (fun x => x / l2norm v) = w := by
      have hcg : ∀ x ∈ w, x / l2norm v = x := fun x hx => by rw [hall x hx]; simp
      calc w.map (fun x => x / l2norm v) = w.map id := List.map_congr_left hcg
        _ = w := List.map_id w
    rw [hmap0]
  · have hdiv : l2norm (w.map (fun x => x / l2norm v)) = l2norm w / l2norm v :=
      l2norm_map_div w _ hnpos
    have hne : l2norm w / l2norm v ≠ 0 := div_ne_zero hzw hn
    rw [normalizeVec_of_norm_ne_zero _ (by rw [hdiv]; exact hne),
      normalizeVec_of_norm_ne_zero w hzw, hdiv, List.map_map]
    have hfun : ((fun x => x / (l2norm w / l2norm v)) ∘ fun x : ℝ => x / l2norm v)
        = fun x : ℝ => x / l2norm w := by
      funext x
      show x / l2norm v / (l2norm w / l2norm v) = x / l2norm w
      field_simp
    rw [hfun]

theorem C2_witness :
    (∃ x ∈ ([3, 4] : List ℝ), x ≠ 0) ∧ (1 : ℕ) ≤ ([3, 4] : List ℝ).length ∧
    truncate_and_normalize_embedding
        (truncate_and_normalize_embedding [3, 4] ((([3, 4] : List ℝ).length : ℕ) : ℤ))
        ((1 : ℕ) : ℤ)
      = truncate_and_normalize_embedding [3, 4] ((1 : ℕ) : ℤ) :=
  ⟨⟨3, by simp, by norm_num⟩, by simp,
    C2_normalization_idempotent [3, 4] 1 ⟨3, by simp, by norm_num⟩ (by simp)⟩

/-! ## C3: output shape, unit norm, zero-guard, and the [3,4,5,6] scenario -/

/-- C3: for every raw vector and positive `target_dim`, normalization returns
the first `target_dim` coordinates (the full vector when `target_dim ≥ len`),
of length exactly `min target_dim len(raw)`; the result has L2 norm exactly 1
unless the (truncated) input has zero norm, in which case the zero vector is
returned unchanged (the division is guarded by dividing by 1); and
`normalize([3,4,5,6], 2) = [0.6, 0.8]`. -/
theorem C3_normalize_shape_unit_norm :
    (∀ (v : List ℝ) (d : ℤ), 0 < d →
      truncate_and_normalize_embedding v d = normalizeVec (v.take d.toNat) ∧
      (truncate_and_normalize_embedding v d).length = min d.toNat v.length ∧
      (l2norm (truncateEmbedding v d) ≠ 0 →
        l2norm (truncate_and_normalize_embedding v d) = 1) ∧
      (l2norm (truncateEmbedding v d) = 0 →
        truncate_and_normalize_embedding v d = truncateEmbedding v d)) ∧
    truncate_and_normalize_embedding [3, 4, 5, 6] 2 = [3 / 5, 4 / 5] := by
  constructor
  · intro v d hd
    refine ⟨?_, ?_, ?_, ?_⟩
    · rw [truncate_and_normalize_embedding, truncateEmbedding_of_nonneg v d hd.le]
    · exact truncate_and_normalize_length v d hd.le
    · intro h
      rw [truncate_and_normalize_embedding]
      exact l2norm_normalizeVec _ h
    · intro h
      rw [truncate_and_normalize_embedding, normalizeVec_of_norm_zero _ h]
  · have htr : truncateEmbedding [3, 4, 5, 6] 2 = [3, 4] := by
      rw [truncateEmbedding_of_nonneg _ _ (by norm_num)]
      rfl
    have hsum : sumSq [3, 4] = 25 := by norm_num [sumSq]
    have hnorm : l2norm ([3, 4] : List ℝ) = 5 := by
      rw [l2norm, hsum, show (25 : ℝ) = 5 ^ 2 by norm_num,
        Real.sqrt_sq (by norm_num : (0 : ℝ) ≤ 5)]
    rw [truncate_and_normalize_embedding, htr,
      normalizeVec_of_norm_ne_zero _ (by rw [hnorm]; norm_num), hnorm]
    norm_num

/-! ## C8: non-positive target dimension is rejected -/

/-- C8: for every input and every `embed_dim ≤ 0`, `get_molecular_embedding`
fails with the `ValueError` "embed_dim must be positive" surfaced to its caller;
it never silently returns a result. -/
theorem C8_nonpositive_dim_error (o : Oracle) (smiles : String) (embed_dim : ℤ)
    (h : embed_dim ≤ 0) :
    get_molecular_embedding o smiles embed_dim = .error "embed_dim must be positive" := by
  simp [get_molecular_embedding, h]

theorem C8_witness :
    (0 : ℤ) ≤ 0 ∧
    get_molecular_embedding ⟨fun _ => none, fun _ => Except.ok []⟩ "CCO" 0
      = .error "embed_dim must be positive" :=
  ⟨le_refl 0, C8_nonpositive_dim_error ⟨fun _ => none, fun _ => Except.ok []⟩ "CCO" 0
    (le_refl 0)⟩

/-! ## C10: totality of the helper at zero and negative dimensions -/

/-- C10: `_truncate_and_normalize_embedding` is total over all integer
dimensions (it is a function in this model, mirroring that no branch raises):
at `embed_dim = 0` it returns the empty vector, and at a negative `embed_dim`
Python slice semantics drop the last `|embed_dim|` coordinates, so the output
length is `len(raw) - |embed_dim|` (truncated at zero) rather than the
`min(embed_dim, len(raw))` of the positive-dimension contract. -/
theorem C10_trunc_zero_and_negative_dims :
    (∀ v : List ℝ, truncate_and_normalize_embedding v 0 = []) ∧
    (∀ (v : List ℝ) (d : ℤ), d < 0 →
      (truncate_and_normalize_embedding v d).length = v.length - d.natAbs) := by
  constructor
  · intro v
    rw [truncate_and_normalize_embedding, truncateEmbedding_of_nonneg v 0 le_rfl]
    simp [normalizeVec]
  · intro v d hd
    rw [truncate_and_normalize_embedding, normalizeVec_length, truncateEmbedding,
      if_pos (by omega : d < (v.length : ℤ)), pySliceTo, if_neg (by omega),
      List.length_take]
    omega

/-! ## C9: the startup ping retry loop -/

theorem pingRetryLoop_busy_forever (n : ℕ) :
    pingRetryLoop (fun _ => PingOutcome.busyLoading) n = none := by
  induction n with
  | zero => rfl
  | succ k ih => simpa [pingRetryLoop, retryExit] using ih

/-- C9 counterexample: the claim that the retry loop on the "still loading"
condition is bounded — that some maximum attempt count `N` guarantees the loop
has terminated (connected or failed fast) within `N` attempts — is false: on a
store that keeps answering `BusyLoadingError` the loop never exits. -/
theorem C9_counterexample :
    ¬ ∃ N : ℕ, ∀ outcomes : ℕ → PingOutcome, (pingRetryLoop outcomes N).isSome = true := by
  rintro ⟨N, h⟩
  have hb := h (fun _ => PingOutcome.busyLoading)
  rw [pingRetryLoop_busy_forever N] at hb
  simp at hb

/-- C9 (amended): the startup retry loop on the "still loading" condition is
unbounded — there is no maximum retry count.  It has exited within `fuel`
attempts exactly when some earlier ping attempt returned a non-busy-loading
outcome: a successful ping (connection established) or any other exception
(immediately fatal, not retried). -/
theorem C9_retry_loop_unbounded (outcomes : ℕ → PingOutcome) (fuel : ℕ) :
    (pingRetryLoop outcomes fuel).isSome = true
      ↔ ∃ k < fuel, outcomes k ≠ PingOutcome.busyLoading := by
  induction fuel generalizing outcomes with
  | zero => simp [pingRetryLoop]
  | succ n ih =>
    rw [pingRetryLoop]
    cases h0 : outcomes 0 with
    | busyLoading =>
      rw [show retryExit PingOutcome.busyLoading = none from rfl]
      rw [ih (fun k => outcomes (k + 1))]
      constructor
      · rintro ⟨k, hk, hne⟩
        exact ⟨k + 1, by omega, hne⟩
      · rintro ⟨k, hk, hne⟩
        match k with
        | 0 => exact absurd h0 hne
        | k + 1 => exact ⟨k, by omega, hne⟩
    | success =>
      simp only [retryExit, Option.isSome_some, true_iff]
      exact ⟨0, by omega, by rw [h0]; intro hc; cases hc⟩
    | failure e =>
      simp only [retryExit, Option.isSome_some, true_iff]
      exact ⟨0, by omega, by rw [h0]; intro hc; cases hc⟩

/-! ## Helper lemmas: association-list lookup -/

theorem lookup_append_left {β : Type} (l₁ l₂ : List (String × β)) (k : String) (b : β)
    (h : l₁.lookup k = some b) : (l₁ ++ l₂).lookup k = some b := by
  induction l₁ with
  | nil => simp [List.lookup] at h
  | cons p rest ih =>
    obtain ⟨a, v⟩ := p
    rw [List.cons_append]
    cases hak : (k == a) with
    | true => simp only [List.lookup, hak] at h ⊢; exact h
    | false => simp only [List.lookup, hak] at h ⊢; exact ih h

theorem lookup_append_right {β : Type} (l₁ l₂ : List (String × β)) (k : String)
    (h : l₁.lookup k = none) : (l₁ ++ l₂).lookup k = l₂.lookup k := by
  induction l₁ with
  | nil => simp
  | cons p rest ih =>
    obtain ⟨a, v⟩ := p
    rw [List.cons_append]
    cases hak : (k == a) with
    | true => simp only [List.lookup, hak] at h; exact absurd h (by simp)
    | false => simp only [List.lookup, hak] at h ⊢; exact ih h

theorem lookup_none_of_not_mem_keys {β : Type} (l : List (String × β)) (k : String)
    (h : k ∉ l.map Prod.fst) : l.lookup k = none := by
  induction l with
  | nil => rfl
  | cons p rest ih =>
    obtain ⟨a, v⟩ := p
    cases hak : (k == a) with
    | true =>
      have hka : k = a := eq_of_beq hak
      subst hka
      exact absurd (by simp) h
    | false =>
      simp only [List.lookup, hak]
      exact ih fun hmem => h (by rw [List.map_cons]; exact List.mem_cons_of_mem _ hmem)

theorem lookup_map_pairs {β : Type} (names : ℕ → String) (g : ℕ → β) (l : List ℕ) (d : ℕ)
    (hd : d ∈ l) (hinj : ∀ d' ∈ l, names d' = names d → d' = d) :
    (l.map (fun d' => (names d', g d'))).lookup (names d) = some (g d) := by
  induction l with
  | nil => cases hd
  | cons e rest ih =>
    rw [List.map_cons]
    cases hek : (names d == names e) with
    | true =>
      have he : e = d := hinj e (List.mem_cons_self e rest) (eq_of_beq hek).symm
      subst he
      simp only [List.lookup, hek]
    | false =>
      have hne : names e ≠ names d := by
        intro hcontra
        rw [hcontra] at hek
        simp at hek
      have hd' : d ∈ rest := by
        rcases List.mem_cons.mp hd with rfl | hmem
        · exact absurd rfl hne
        · exact hmem
      simp only [List.lookup, hek]
      exact ih hd' fun d' hd'' heq => hinj d' (List.mem_cons_of_mem e hd'') heq

/-! ## Helper lemmas: the ingestion fold -/

theorem processRow_eq (o : Oracle) (acc : Store × ℕ) (row : DataRow) :
    processRow o acc row =
      if Store.hasKey acc.1 (molecule_index_pfx row.smiles) then acc
      else
        match get_molecular_embedding o row.smiles (EMBEDDING_DIMENSION : ℤ) with
        | .error _ => (acc.1, acc.2 + 1)
        | .ok cache =>
            (Store.hset acc.1 (molecule_index_pfx row.smiles) (recordMapping row cache),
              acc.2 + 1) := rfl

theorem processRow_fst_count (o : Oracle) (s : Store) (n m : ℕ) (row : DataRow) :
    (processRow o (s, n) row).1 = (processRow o (s, m) row).1 := by
  rw [processRow_eq, processRow_eq]
  by_cases hk : Store.hasKey s (molecule_index_pfx row.smiles) = true
  · rw [if_pos hk, if_pos hk]
  · rw [if_neg hk, if_neg hk]
    cases hge : get_molecular_embedding o row.smiles (EMBEDDING_DIMENSION : ℤ) <;> rfl

theorem foldl_processRow_fst_count (o : Oracle) (df : List DataRow) :
    ∀ (s : Store) (n m : ℕ),
      (df.foldl (processRow o) (s, n)).1 = (df.foldl (processRow o) (s, m)).1 := by
  induction df with
  | nil => intro s n m; rfl
  | cons r rest ih =>
    intro s n m
    rw [List.foldl_cons, List.foldl_cons]
    have h1 := processRow_fst_count o s n m r
    calc (rest.foldl (processRow o) (processRow o (s, n) r)).1
        = (rest.foldl (processRow o)
            ((processRow o (s, n) r).1, (processRow o (s, n) r).2)).1 := rfl
      _ = (rest.foldl (processRow o)
            ((processRow o (s, m) r).1, (processRow o (s, m) r).2)).1 := by
          rw [h1]; exact ih _ _ _
      _ = (rest.foldl (processRow o) (processRow o (s, m) r)).1 := rfl

theorem hasKey_hset_self (s : Store) (k : String) (m : Mapping) :
    Store.hasKey (Store.hset s k m) k = true := by
  simp [Store.hasKey, Store.hset]

theorem hasKey_processRow_mono (o : Oracle) (acc : Store × ℕ) (row : DataRow) (k : String)
    (h : Store.hasKey acc.1 k = true) : Store.hasKey (processRow o acc row).1 k = true := by
  rw [processRow_eq]
  by_cases hk : Store.hasKey acc.1 (molecule_index_pfx row.smiles) = true
  · rw [if_pos hk]; exact h
  · rw [if_neg hk]
    cases hge : get_molecular_embedding o row.smiles (EMBEDDING_DIMENSION : ℤ) with
    | error e => exact h
    | ok cache =>
      show Store.hasKey (Store.hset acc.1 _ _) k = true
      simp [Store.hasKey, Store.hset] at h ⊢
      right
      exact h

theorem hasKey_foldl_mono (o : Oracle) (df : List DataRow) :
    ∀ (acc : Store × ℕ) (k : String), Store.hasKey acc.1 k = true →
      Store.hasKey ((df.foldl (processRow o) acc).1) k = true := by
  induction df with
  | nil => intro acc k h; exact h
  | cons r rest ih =>
    intro acc k h
    rw [List.foldl_cons]
    exact ih _ k (hasKey_processRow_mono o acc r k h)

theorem foldl_processed_or_error (o : Oracle) (df : List DataRow) :
    ∀ (acc : Store × ℕ) (r : DataRow), r ∈ df →
      Store.hasKey ((df.foldl (processRow o) acc).1) (molecule_index_pfx r.smiles) = true
      ∨ ∃ e, get_molecular_embedding o r.smiles (EMBEDDING_DIMENSION : ℤ) = .error e := by
  induction df with
  | nil => intro acc r hr; cases hr
  | cons r0 rest ih =>
    intro acc r hr
    rw [List.foldl_cons]
    rcases List.mem_cons.mp hr with rfl | hmem
    · by_cases hk : Store.hasKey acc.1 (molecule_index_pfx r.smiles) = true
      · left
        exact hasKey_foldl_mono o rest _ _ (hasKey_processRow_mono o acc r _ hk)
      · cases hge : get_molecular_embedding o r.smiles (EMBEDDING_DIMENSION : ℤ) with
        | error e => exact Or.inr ⟨e, rfl⟩
        | ok cache =>
          left
          apply hasKey_foldl_mono o rest
          rw [processRow_eq, if_neg hk, hge]
          exact hasKey_hset_self acc.1 _ _
    · exact ih _ r hmem

theorem foldl_processRow_noop (o : Oracle) (df : List DataRow) :
    ∀ (s : Store) (n : ℕ),
      (∀ r ∈ df, Store.hasKey s (molecule_index_pfx r.smiles) = true
        ∨ ∃ e, get_molecular_embedding o r.smiles (EMBEDDING_DIMENSION : ℤ) = .error e) →
      (df.foldl (processRow o) (s, n)).1 = s := by
  induction df with
  | nil => intro s n _; rfl
  | cons r rest ih =>
    intro s n h
    rw [List.foldl_cons]
    have htail : ∀ r' ∈ rest, Store.hasKey s (molecule_index_pfx r'.smiles) = true
        ∨ ∃ e, get_molecular_embedding o r'.smiles (EMBEDDING_DIMENSION : ℤ) = .error e :=
      fun r' hr' => h r' (List.mem_cons_of_mem r hr')
    by_cases hk : Store.hasKey s (molecule_index_pfx r.smiles) = true
    · rw [processRow_eq, if_pos hk]
      exact ih s n htail
    · rcases h r (List.mem_cons_self r rest) with hk' | ⟨e, he⟩
      · exact absurd hk' hk
      · rw [processRow_eq, if_neg hk, he]
        exact ih s (n + 1) htail

theorem embedding_dimension_eq : EMBEDDING_DIMENSION = 1024 := by decide

theorem supported_field_names_nodup :
    (SUPPORTED_EMBEDDING_DIMENSIONS.map (fun d => embedding_field_name (d : ℤ))).Nodup := by
  decide

/-- Looking up a supported dimension's embedding field in the assembled record
mapping yields the embedding derived from the cached native vector, provided
the row's own columns do not use the reserved `embedding_<dim>` field names. -/
theorem recordMapping_lookup_dim (row : DataRow) (native : List ℝ) (d : ℕ)
    (hd : d ∈ SUPPORTED_EMBEDDING_DIMENSIONS)
    (hpay : embedding_field_name (d : ℤ) ∉ (DataRow.toDict row).map Prod.fst) :
    pyDictLookup (recordMapping row native) (embedding_field_name (d : ℤ))
      = some (FieldVal.bytes (truncate_and_normalize_embedding native (d : ℤ))) := by
  rw [pyDictLookup, recordMapping, List.reverse_append]
  rw [lookup_append_right _ _ _ (lookup_none_of_not_mem_keys _ _ (by
    rw [List.map_reverse, List.mem_reverse]
    exact hpay))]
  rw [← List.map_reverse]
  apply lookup_map_pairs (fun d' : ℕ => embedding_field_name (d' : ℤ))
    (fun d' : ℕ => FieldVal.bytes (truncate_and_normalize_embedding native (d' : ℤ)))
  · rw [List.mem_reverse]; exact hd
  · intro d' hd' heq
    have hnodup :
        (SUPPORTED_EMBEDDING_DIMENSIONS.reverse.map
          (fun d'' : ℕ => embedding_field_name (d'' : ℤ))).Nodup := by
      rw [List.map_reverse, List.nodup_reverse]
      exact supported_field_names_nodup
    exact List.inj_on_of_nodup_map hnodup (by simpa using hd') (by simpa using hd) heq

/-- A field present in the row's own dict keeps its row value in the assembled
record mapping (Python's `{**mapping, **row.to_dict()}` lets row fields win). -/
theorem recordMapping_lookup_payload (row : DataRow) (native : List ℝ) (f : String)
    (b : FieldVal) (h : pyDictLookup (DataRow.toDict row) f = some b) :
    pyDictLookup (recordMapping row native) f = some b := by
  rw [pyDictLookup, recordMapping, List.reverse_append]
  exact lookup_append_left _ _ _ _ h

/-! ## C1: single native oracle query, prefix-consistent derivation, atomic write -/

/-- C1: for a record that is new to the store and whose oracle query succeeds
with native vector `native`, the per-record step (a) queries the oracle exactly
once and performs exactly one record-set operation whose mapping is assembled
from that one native vector, (b) stores, for every supported dimension `d`, the
`d`-embedding derived by the normalizer from that same native vector,
(c) keeps every payload field of the row in the written mapping, and (d) the
raw coordinates used to build the `d1`-embedding are a prefix of those used for
the `d2`-embedding whenever `d1 < d2 ≤ len(native)` (truncation is always from
the same native vector).  A key that is already present is skipped entirely
(see `C4_ingestion_idempotent`), so per key either all supported-dimension
embeddings are written or none are. -/
theorem C1_single_native_query_atomic_mapping (o : Oracle) (s : Store) (n : ℕ)
    (row : DataRow) (native : List ℝ)
    (hfresh : Store.hasKey s (molecule_index_pfx row.smiles) = false)
    (hnative : get_molecular_embedding o row.smiles (EMBEDDING_DIMENSION : ℤ)
      = Except.ok native)
    (hpay : ∀ d ∈ SUPPORTED_EMBEDDING_DIMENSIONS,
      embedding_field_name (d : ℤ) ∉ (DataRow.toDict row).map Prod.fst) :
    processRow o (s, n) row
        = (Store.hset s (molecule_index_pfx row.smiles) (recordMapping row native), n + 1) ∧
    (∀ d ∈ SUPPORTED_EMBEDDING_DIMENSIONS,
      pyDictLookup (recordMapping row native) (embedding_field_name (d : ℤ))
        = some (FieldVal.bytes (truncate_and_normalize_embedding native (d : ℤ)))) ∧
    (∀ (f : String) (b : FieldVal), pyDictLookup (DataRow.toDict row) f = some b →
      pyDictLookup (recordMapping row native) f = some b) ∧
    (∀ d1 d2 : ℕ, d1 < d2 → (d2 : ℤ) ≤ (native.length : ℤ) →
      truncateEmbedding native (d1 : ℤ) = (truncateEmbedding native (d2 : ℤ)).take d1) := by
  refine ⟨?_, ?_, ?_, ?_⟩
  · rw [processRow_eq, if_neg (by rw [hfresh]; exact Bool.false_ne_true), hnative]
  · intro d hd
    exact recordMapping_lookup_dim row native d hd (hpay d hd)
  · intro f b hb
    exact recordMapping_lookup_payload row native f b hb
  · intro d1 d2 h12 _
    rw [truncateEmbedding_natCast, truncateEmbedding_natCast, List.take_take,
      min_eq_left h12.le]

theorem C1_witness :
    Store.hasKey [] (molecule_index_pfx (DataRow.mk "CCO" [("name", "Ethanol")]).smiles)
        = false ∧
    get_molecular_embedding ⟨fun _ => none, fun _ => Except.ok [1, 0]⟩
        (DataRow.mk "CCO" [("name", "Ethanol")]).smiles (EMBEDDING_DIMENSION : ℤ)
      = Except.ok (truncate_and_normalize_embedding [1, 0] (EMBEDDING_DIMENSION : ℤ)) ∧
    (∀ d ∈ SUPPORTED_EMBEDDING_DIMENSIONS,
      embedding_field_name (d : ℤ)
        ∉ (DataRow.toDict (DataRow.mk "CCO" [("name", "Ethanol")])).map Prod.fst) ∧
    processRow ⟨fun _ => none, fun _ => Except.ok [1, 0]⟩ ([], 0)
        (DataRow.mk "CCO" [("name", "Ethanol")])
      = (Store.hset [] (molecule_index_pfx (DataRow.mk "CCO" [("name", "Ethanol")]).smiles)
          (recordMapping (DataRow.mk "CCO" [("name", "Ethanol")])
            (truncate_and_normalize_embedding [1, 0] (EMBEDDING_DIMENSION : ℤ))), 0 + 1) := by
  have h2 : get_molecular_embedding ⟨fun _ => none, fun _ => Except.ok [1, 0]⟩
      (DataRow.mk "CCO" [("name", "Ethanol")]).smiles (EMBEDDING_DIMENSION : ℤ)
      = Except.ok (truncate_and_normalize_embedding [1, 0] (EMBEDDING_DIMENSION : ℤ)) := by
    simp [get_molecular_embedding, embedding_dimension_eq]
  have h3 : ∀ d ∈ SUPPORTED_EMBEDDING_DIMENSIONS,
      embedding_field_name (d : ℤ)
        ∉ (DataRow.toDict (DataRow.mk "CCO" [("name", "Ethanol")])).map Prod.fst := by
    decide
  exact ⟨rfl, h2, h3,
    (C1_single_native_query_atomic_mapping _ [] 0 _ _ rfl h2 h3).1⟩

/-! ## C4: ingestion idempotence -/

/-- C4: ingestion is idempotent.  A record whose backing-store key already
exists is skipped: the per-record step performs no write and no oracle query.
Consequently running `__populate_sample_data` a second time over the same
dataset, starting from the store the first run produced, leaves that store
exactly as it was — the same stored records, no duplicate writes. -/
theorem C4_ingestion_idempotent (o : Oracle) (s : Store) (df : List DataRow) :
    (populate_sample_data o (populate_sample_data o s df).1 df).1
        = (populate_sample_data o s df).1 ∧
    (∀ (s' : Store) (n : ℕ) (row : DataRow),
      Store.hasKey s' (molecule_index_pfx row.smiles) = true →
        processRow o (s', n) row = (s', n)) := by
  constructor
  · rw [populate_sample_data, populate_sample_data]
    apply foldl_processRow_noop
    intro r hr
    exact foldl_processed_or_error o df (s, 0) r hr
  · intro s' n row h
    rw [processRow_eq, if_pos h]

/-! ## C7: partial-failure isolation -/

/-- C7: per-record failures during ingestion are isolated.  If one record's
oracle call raises, that record is logged and skipped, and the batch's final
store is exactly the store produced by ingesting the batch without that
record: every other record is still processed and stored, and a single
record's failure never aborts the whole ingestion batch. -/
theorem C7_partial_failure_isolation (o : Oracle) (s : Store) (pre post : List DataRow)
    (bad : DataRow) (e : String)
    (herr : get_molecular_embedding o bad.smiles (EMBEDDING_DIMENSION : ℤ)
      = Except.error e) :
    (populate_sample_data o s (pre ++ bad :: post)).1
      = (populate_sample_data o s (pre ++ post)).1 := by
  rw [populate_sample_data, populate_sample_data, List.foldl_append, List.foldl_append,
    List.foldl_cons]
  set acc := pre.foldl (processRow o) (s, 0) with hacc
  have hstep : (processRow o acc bad).1 = acc.1 := by
    rw [processRow_eq]
    by_cases hk : Store.hasKey acc.1 (molecule_index_pfx bad.smiles) = true
    · rw [if_pos hk]
    · rw [if_neg hk, herr]
  calc (post.foldl (processRow o) (processRow o acc bad)).1
      = (post.foldl (processRow o) ((processRow o acc bad).1, (processRow o acc bad).2)).1 :=
        rfl
    _ = (post.foldl (processRow o) (acc.1, acc.2)).1 := by
        rw [hstep]
        exact foldl_processRow_fst_count o post acc.1 _ _
    _ = (post.foldl (processRow o) acc).1 := rfl

theorem C7_witness :
    get_molecular_embedding ⟨fun _ => none, fun _ => Except.error "oracle down"⟩
        (DataRow.mk "BAD" []).smiles (EMBEDDING_DIMENSION : ℤ)
      = Except.error "oracle down" ∧
    (populate_sample_data ⟨fun _ => none, fun _ => Except.error "oracle down"⟩ []
        ([] ++ DataRow.mk "BAD" [] :: [])).1
      = (populate_sample_data ⟨fun _ => none, fun _ => Except.error "oracle down"⟩ []
          ([] ++ [])).1 := by
  have h : get_molecular_embedding ⟨fun _ => none, fun _ => Except.error "oracle down"⟩
      (DataRow.mk "BAD" []).smiles (EMBEDDING_DIMENSION : ℤ)
      = Except.error "oracle down" := by
    simp [get_molecular_embedding, embedding_dimension_eq]
  exact ⟨h, C7_partial_failure_isolation _ [] [] [] _ _ h⟩

/-! ## C5: search result ordering and projection -/

/-- C5: `find_similar_molecules` returns the backend's reply in the reply's
rank order — each match carrying the canonical key (`smiles`), the payload
fields (`name`, `properties`) and its numeric score — and when the backend
honours the query's ascending sort on the KNN distance score (the built query
requests `sort_by("score")`), the returned sequence is ordered by
non-increasing cosine similarity (for the configured COSINE /
inner-product-as-cosine metric, a smaller reported distance score means more
similar). -/
theorem C5_search_order_preserved (backend : KnnQuery → Except String (List SearchDoc))
    (query_embedding : List ℝ) (embed_dim k : ℤ) (docs : List SearchDoc)
    (hok : backend (buildKnnQuery query_embedding embed_dim k) = Except.ok docs)
    (hsorted : docs.Pairwise (fun a b => a.score ≤ b.score)) :
    find_similar_molecules backend query_embedding embed_dim k
        = docs.map (fun doc =>
            ({ smiles := doc.smiles, name := doc.name, properties := doc.properties
               score := doc.score } : SimilarMolecule)) ∧
    (find_similar_molecules backend query_embedding embed_dim k).Pairwise
      (fun a b => similarityOfScore b.score ≤ similarityOfScore a.score) := by
  have heq : find_similar_molecules backend query_embedding embed_dim k
      = docs.map (fun doc =>
          ({ smiles := doc.smiles, name := doc.name, properties := doc.properties
             score := doc.score } : SimilarMolecule)) := by
    simp only [find_similar_molecules, hok]
  refine ⟨heq, ?_⟩
  rw [heq, List.pairwise_map]
  apply hsorted.imp
  intro a b hab
  simp only [similarityOfScore]
  linarith

theorem C5_witness :
    demoBackend (buildKnnQuery [] 8 2) = Except.ok demoDocs ∧
    demoDocs.Pairwise (fun a b => a.score ≤ b.score) ∧
    find_similar_molecules demoBackend [] 8 2
      = demoDocs.map (fun doc =>
          ({ smiles := doc.smiles, name := doc.name, properties := doc.properties
             score := doc.score } : SimilarMolecule)) := by
  have hs : demoDocs.Pairwise (fun a b => a.score ≤ b.score) := by
    simp [demoDocs]
  exact ⟨rfl, hs, (C5_search_order_preserved demoBackend [] 8 2 demoDocs rfl hs).1⟩

/-! ## C6: search never propagates an error -/

/-- C6: `find_similar_molecules` never raises to its caller.  On any backend
error it returns the empty sequence (the exception is caught and logged); in
particular, against a backend with the modelled rejection semantics, a query
for a dimension outside the supported dimension set returns the empty
sequence, and so does a query with `k ≤ 0`. -/
theorem C6_search_swallows_errors (backend : KnnQuery → Except String (List SearchDoc))
    (hreject : rejectsInvalidQueries backend) (query_embedding : List ℝ)
    (embed_dim k : ℤ) :
    (∀ e, backend (buildKnnQuery query_embedding embed_dim k) = Except.error e →
      find_similar_molecules backend query_embedding embed_dim k = []) ∧
    (embed_dim ∉ SUPPORTED_EMBEDDING_DIMENSIONS.map (fun d : ℕ => (d : ℤ)) →
      find_similar_molecules backend query_embedding embed_dim k = []) ∧
    (k ≤ 0 → find_similar_molecules backend query_embedding embed_dim k = []) := by
  have herr : ∀ e, backend (buildKnnQuery query_embedding embed_dim k) = Except.error e →
      find_similar_molecules backend query_embedding embed_dim k = [] := by
    intro e he
    simp only [find_similar_molecules, he]
  refine ⟨herr, ?_, ?_⟩
  · intro hdim
    obtain ⟨e, he⟩ := hreject (buildKnnQuery query_embedding embed_dim k) (Or.inr hdim)
    exact herr e he
  · intro hk
    obtain ⟨e, he⟩ := hreject (buildKnnQuery query_embedding embed_dim k) (Or.inl hk)
    exact herr e he

theorem rejectingBackend_rejects : rejectsInvalidQueries rejectingBackend := by
  intro q hq
  rcases hq with hk | hd
  · exact ⟨"k must be positive", by simp [rejectingBackend, hk]⟩
  · by_cases hk : q.knnK ≤ 0
    · exact ⟨"k must be positive", by simp [rejectingBackend, hk]⟩
    · exact ⟨"Unknown field", by simp [rejectingBackend, hk, hd]⟩

theorem C6_witness :
    rejectsInvalidQueries rejectingBackend ∧
    ((7 : ℤ) ∉ SUPPORTED_EMBEDDING_DIMENSIONS.map (fun d : ℕ => (d : ℤ))) ∧
    find_similar_molecules rejectingBackend [] 7 3 = [] :=
  ⟨rejectingBackend_rejects, by decide,
    (C6_search_swallows_errors rejectingBackend rejectingBackend_rejects [] 7 3).2.1
      (by decide)⟩

end ChemMRLDemo
